import Mathlib

/-!
Verification of the citation-splicing and grounding-extraction logic of
`gemini_google_search_tool` (files `core/search.py` and `utils.py`).

Strings are modelled as `List Char` (Python `str` values, indexed by code
point).  Python integers are modelled as `Int`.  Python slicing `s[:e]` /
`s[e:]` with an arbitrary integer `e` clamps the index; this is modelled by
`pyClamp`.  Python's `sorted(..., key=..., reverse=True)` is a stable sort by
the key in descending order; any two stable sorts for the same total preorder
agree on every input, so it is modelled by `List.insertionSort` with the
relation "my key is at least yours", which is stable in exactly the same
sense.
-/

namespace GeminiSearch

/-- Python strings. -/
abbrev Str := List Char

/-- Effective index of the Python slices `s[:e]` and `s[e:]` on a string of
length `n`: negative indices count from the end and everything is clamped
into `[0, n]`. -/
def pyClamp (n : Nat) (e : Int) : Nat :=
  if e < 0 then ((n : Int) + e).toNat else min e.toNat n

/-- Python `text[:e] + ins + text[e:]`. -/
def spliceAt (text : Str) (e : Int) (ins : Str) : Str :=
  text.take (pyClamp text.length e) ++ ins ++ text.drop (pyClamp text.length e)

/-- Mirrors the dataclass `Citation` of `core/search.py`: citation number
(1-based), web URI of the source, title (may be empty). -/
structure Citation where
  index : Int
  uri : Str
  title : Str
deriving DecidableEq

/-- Mirrors the dataclass `GroundingSegment` of `core/search.py`. -/
structure GroundingSegment where
  start_index : Int
  end_index : Int
  text : Str
  chunk_indices : List Int
deriving DecidableEq

/-- Mirrors `citation_uris = {c.index: c.uri for c in citations}` followed by
`citation_uris.get(k)`: a Python dict comprehension keeps the value of the
last entry written for a key, i.e. of the last citation with this index. -/
def citation_uris (citations : List Citation) (k : Int) : Option Str :=
  (citations.reverse.find? (fun c => c.index == k)).map Citation.uri

/-- Mirrors the f-string `f"[{citation_idx}]({uri})"`. -/
def fmtCitation (citation_idx : Int) (uri : Str) : Str :=
  ("[".data) ++ (toString citation_idx).data ++ ("](".data) ++ uri ++ (")".data)

/-- Body of the `for chunk_idx in segment.chunk_indices` loop of
`add_inline_citations`: the 1-based citation index is `chunk_idx + 1`; a
citation whose URI is missing or empty (Python `if uri:`) yields no link. -/
def linkOf (citations : List Citation) (chunk_idx : Int) : Option Str :=
  match citation_uris citations (chunk_idx + 1) with
  | some uri => if uri = [] then none else some (fmtCitation (chunk_idx + 1) uri)
  | none => none

/-- Mirrors the accumulation of `citation_links` in `add_inline_citations`. -/
def citationLinks (citations : List Citation) (segment : GroundingSegment) : List Str :=
  segment.chunk_indices.filterMap (linkOf citations)

/-- Body of the `for segment in sorted_segments` loop of
`add_inline_citations`: skip a segment without chunk indices, build the
citation links, and when they are non-empty splice the comma-joined group at
`end_index`. -/
def processSegment (citations : List Citation) (text : Str) (segment : GroundingSegment) : Str :=
  if segment.chunk_indices = [] then text
  else if citationLinks citations segment = [] then text
  else spliceAt text segment.end_index
    (List.intercalate (", ".data) (citationLinks citations segment))

/-- Mirrors `sorted(grounding_segments, key=lambda s: s.end_index, reverse=True)`:
a stable sort by `end_index` descending. -/
def sortSegments (segs : List GroundingSegment) : List GroundingSegment :=
  List.insertionSort (fun a b => b.end_index ≤ a.end_index) segs

/-- Mirrors `add_inline_citations(response_text, grounding_segments, citations)`
of `core/search.py`: `if not grounding_segments or not citations` return the
text unchanged, otherwise process the segments sorted by `end_index`
descending. -/
def add_inline_citations (response_text : Str)
    (grounding_segments : Option (List GroundingSegment))
    (citations : List Citation) : Str :=
  match grounding_segments with
  | none => response_text
  | some segs =>
    if segs = [] ∨ citations = [] then response_text
    else (sortSegments segs).foldl (processSegment citations) response_text

/-- Shape of the `web` attribute of a raw grounding chunk, as read by
`query_with_grounding`: `uri` and `title` may each be absent. -/
structure RawWeb where
  uri : Option Str
  title : Option Str
deriving DecidableEq

/-- Shape of a raw grounding chunk as read by `query_with_grounding`:
`web` is `some` when `hasattr(chunk, "web") and chunk.web` holds;
`hasUriAttr` records `hasattr(chunk, "uri")`, in which case the flat `uri`
and `title` attributes (each possibly `None`) are consulted instead. -/
structure RawChunk where
  web : Option RawWeb
  hasUriAttr : Bool
  uri : Option Str
  title : Option Str
deriving DecidableEq

/-- Mirrors the `uri`/`title` derivation of the citation loop in
`query_with_grounding`: prefer the nested `web` object, else the flat
attributes, else nothing. -/
def resolveChunk (chunk : RawChunk) : Option Str × Option Str :=
  match chunk.web with
  | some w => (w.uri, w.title)
  | none => if chunk.hasUriAttr then (chunk.uri, chunk.title) else (none, none)

/-- Mirrors `for i, chunk in enumerate(chunks)` starting the counter at `i`:
a chunk with a truthy `uri` yields `Citation(index=i + 1, uri=uri,
title=title or "")`; other chunks yield nothing but still advance `i`. -/
def extractCitationsFrom : Nat → List RawChunk → List Citation
  | _, [] => []
  | i, chunk :: rest =>
    match (resolveChunk chunk).1 with
    | some uri =>
      if uri = [] then extractCitationsFrom (i + 1) rest
      else ⟨(i : Int) + 1, uri, ((resolveChunk chunk).2).getD []⟩ ::
        extractCitationsFrom (i + 1) rest
    | none => extractCitationsFrom (i + 1) rest

/-- Citation extraction of `query_with_grounding` over the raw chunk list. -/
def extractCitations (chunks : List RawChunk) : List Citation :=
  extractCitationsFrom 0 chunks

/-- Shape of the `segment` attribute of a raw grounding support; the three
attributes default to `0`, `0` and `""` via `getattr`. -/
structure RawSegment where
  start_index : Option Int
  end_index : Option Int
  text : Option Str
deriving DecidableEq

/-- Shape of a raw grounding support as read by `query_with_grounding`:
an optional `segment` and the `grounding_chunk_indices` (default `[]`). -/
structure RawSupport where
  segment : Option RawSegment
  grounding_chunk_indices : List Int
deriving DecidableEq

/-- Mirrors the body of the `for support in supports` loop of
`query_with_grounding`: a support without a truthy `segment` is dropped,
otherwise a `GroundingSegment` is built with `getattr` defaults. -/
def segmentOfSupport (support : RawSupport) : Option GroundingSegment :=
  match support.segment with
  | some seg =>
    some ⟨seg.start_index.getD 0, seg.end_index.getD 0, seg.text.getD [],
      support.grounding_chunk_indices⟩
  | none => none

/-- Mirrors the grounding-support extraction of `query_with_grounding`: the
`grounding_segments` variable stays `None` unless the supports list is truthy
and at least one support carries a segment. -/
def extractGroundingSegments (supports : List RawSupport) : Option (List GroundingSegment) :=
  if supports = [] then none
  else
    let segments := supports.filterMap segmentOfSupport
    if segments = [] then none else some segments

/-- Message of the `ValueError` raised by `validate_prompt` when no prompt is
given (`utils.py`). -/
def noPromptMessage : Str :=
  ("No prompt provided. Either provide PROMPT argument or use --stdin flag.\nExamples:\n  gemini-google-search-tool query \x27Who won euro 2024?\x27\n  echo \x27Who won euro 2024?\x27 | gemini-google-search-tool query --stdin").data

/-- Mirrors `validate_prompt(prompt, use_stdin)` of `utils.py`.  Raising a
`ValueError` is modelled as `Except.error` carrying the message; the result
of `read_stdin()` (I/O) is passed in as `stdin_result` and is only consulted
when `use_stdin` is true. -/
def validate_prompt (prompt : Option Str) (use_stdin : Bool)
    (stdin_result : Except Str Str) : Except Str Str :=
  if use_stdin then stdin_result
  else
    match prompt with
    | none => Except.error noPromptMessage
    | some p => if p = [] then Except.error noPromptMessage else Except.ok p

/-! Helper lemmas about the splicer. -/

theorem citation_uris_nil (k : Int) : citation_uris [] k = none := rfl

theorem linkOf_eq_none (citations : List Citation) (i : Int)
    (h : (citation_uris citations (i + 1)).getD [] = []) : linkOf citations i = none := by
  unfold linkOf
  cases hu : citation_uris citations (i + 1) with
  | none => rfl
  | some u =>
    rw [hu] at h
    simp at h
    simp [h]

theorem linkOf_eq_some (citations : List Citation) (i : Int)
    (h : (citation_uris citations (i + 1)).getD [] ≠ []) :
    linkOf citations i =
      some (fmtCitation (i + 1) ((citation_uris citations (i + 1)).getD [])) := by
  unfold linkOf
  cases hu : citation_uris citations (i + 1) with
  | none => rw [hu] at h; simp at h
  | some u =>
    rw [hu] at h
    simp at h
    simp [h]

theorem sortSegments_singleton (s : GroundingSegment) : sortSegments [s] = [s] := rfl

theorem intercalate_nil_links (sep : Str) : List.intercalate sep ([] : List Str) = [] := rfl

theorem add_inline_citations_some (t : Str) (segs : List GroundingSegment)
    (cits : List Citation) (h1 : segs ≠ []) (h2 : cits ≠ []) :
    add_inline_citations t (some segs) cits =
      List.foldl (processSegment cits) t (sortSegments segs) := by
  show (if segs = [] ∨ cits = [] then t
    else List.foldl (processSegment cits) t (sortSegments segs)) = _
  rw [if_neg (by simp [h1, h2])]

theorem citationLinks_nil_of_citations_nil (seg : GroundingSegment) :
    citationLinks [] seg = [] := by
  unfold citationLinks
  exact List.filterMap_eq_nil_iff.mpr fun a _ => rfl

theorem citations_ne_nil_of_links (citations : List Citation) (seg : GroundingSegment)
    (h : citationLinks citations seg ≠ []) : citations ≠ [] := by
  intro hc
  exact h (hc ▸ citationLinks_nil_of_citations_nil seg)

theorem chunk_indices_ne_nil_of_links (citations : List Citation) (seg : GroundingSegment)
    (h : citationLinks citations seg ≠ []) : seg.chunk_indices ≠ [] := by
  intro hc
  apply h
  unfold citationLinks
  rw [hc, List.filterMap_nil]

/-! Statements and proofs of the individual claims. -/

/-- C6: the splicer returns the text unchanged when the segment sequence is
absent (`None`) or empty, and when the citation roster is empty. -/
theorem claim_C6 : ∀ (t : Str) (cits : List Citation) (segs : List GroundingSegment),
    add_inline_citations t none cits = t ∧
    add_inline_citations t (some []) cits = t ∧
    add_inline_citations t (some segs) [] = t := by
  intro t cits segs
  exact ⟨rfl, by simp [add_inline_citations], by simp [add_inline_citations]⟩

/-- C9: with `use_stdin = false`, `validate_prompt` fails with a message
containing "No prompt provided" exactly when the prompt is `None` or the
empty string, and returns every non-empty prompt unchanged. -/
theorem claim_C9 (prompt : Option Str) (stdin_result : Except Str Str) :
    ((∃ m, validate_prompt prompt false stdin_result = Except.error m ∧
        ("No prompt provided".data) <+: m) ↔ (prompt = none ∨ prompt = some [])) ∧
    (∀ s : Str, s ≠ [] → validate_prompt (some s) false stdin_result = Except.ok s) := by
  constructor
  · constructor
    · rintro ⟨m, hm, -⟩
      cases prompt with
      | none => exact Or.inl rfl
      | some p =>
        by_cases hp : p = []
        · exact Or.inr (by rw [hp])
        · simp [validate_prompt, hp] at hm
    · rintro (rfl | rfl)
      · exact ⟨noPromptMessage, rfl, by decide⟩
      · exact ⟨noPromptMessage, rfl, by decide⟩
  · intro s hs
    simp [validate_prompt, hs]

/-- Closed witness for C9 at a concrete prompt and at the absent prompt. -/
theorem claim_C9_witness :
    validate_prompt (some ("hi".data)) false (Except.ok []) = Except.ok ("hi".data) ∧
    (∃ m, validate_prompt none false (Except.ok []) = Except.error m ∧
      ("No prompt provided".data) <+: m) :=
  ⟨(claim_C9 (some ("hi".data)) (Except.ok [])).2 ("hi".data) (by decide),
   (claim_C9 none (Except.ok [])).1.mpr (Or.inl rfl)⟩

/-- C8: supports without a segment are dropped, and an empty resulting list
leaves `grounding_segments` absent (`none`), never `some []`. -/
theorem claim_C8 (supports : List RawSupport) :
    (∀ l, extractGroundingSegments supports = some l →
      l = supports.filterMap segmentOfSupport ∧ l ≠ []) ∧
    (supports.filterMap segmentOfSupport = [] →
      extractGroundingSegments supports = none) := by
  by_cases hs : supports = []
  · subst hs
    exact ⟨fun l hl => by simp [extractGroundingSegments] at hl, fun _ => rfl⟩
  · by_cases hf : supports.filterMap segmentOfSupport = []
    · refine ⟨fun l hl => ?_, fun _ => ?_⟩
      · simp [extractGroundingSegments, hs, hf] at hl
      · simp [extractGroundingSegments, hs, hf]
    · refine ⟨fun l hl => ?_, fun h => absurd h hf⟩
      simp [extractGroundingSegments, hs, hf] at hl
      exact ⟨hl.symm, hl ▸ hf⟩

/-- Closed witness for C8: a support without a segment yields `none`; a mixed
list keeps exactly the supports that carry a segment. -/
theorem claim_C8_witness :
    extractGroundingSegments [(⟨none, [0]⟩ : RawSupport)] = none ∧
    ([(⟨0, 2, "ab".data, [1]⟩ : GroundingSegment)] =
        List.filterMap segmentOfSupport
          [(⟨none, [0]⟩ : RawSupport), ⟨some ⟨some 0, some 2, some ("ab".data)⟩, [1]⟩] ∧
      [(⟨0, 2, "ab".data, [1]⟩ : GroundingSegment)] ≠ []) :=
  ⟨(claim_C8 _).2 (by decide), (claim_C8 _).1 _ (by decide)⟩

/-- C5: a chunk index with no matching citation is silently omitted from the
marker group without discarding the segment's other links, and a segment all
of whose chunk indices are unresolvable leaves the text unchanged. -/
theorem claim_C5 (t : Str) (seg : GroundingSegment) (cits : List Citation) :
    ((∀ idx ∈ seg.chunk_indices, (citation_uris cits (idx + 1)).getD [] = []) →
        add_inline_citations t (some [seg]) cits = t) ∧
    (∀ pre post bad, (citation_uris cits (bad + 1)).getD [] = [] →
        citationLinks cits ⟨seg.start_index, seg.end_index, seg.text, pre ++ bad :: post⟩ =
          citationLinks cits ⟨seg.start_index, seg.end_index, seg.text, pre ++ post⟩) := by
  constructor
  · intro h
    unfold add_inline_citations
    by_cases hc : cits = []
    · simp [hc]
    · simp only [hc, or_false]
      rw [if_neg (by simp)]
      rw [sortSegments_singleton]
      show processSegment cits t seg = t
      unfold processSegment
      by_cases hci : seg.chunk_indices = []
      · simp [hci]
      · have hl : citationLinks cits seg = [] :=
          List.filterMap_eq_nil_iff.mpr fun a ha => linkOf_eq_none _ _ (h a ha)
        simp [hci, hl]
  · intro pre post bad hbad
    unfold citationLinks
    simp only [List.filterMap_append, List.filterMap_cons, linkOf_eq_none _ _ hbad]

/-- Closed witness for C5: a segment referencing chunk index 5 when no
citation has index 6 leaves the text unchanged. -/
theorem claim_C5_witness :
    add_inline_citations ("ab".data) (some [(⟨0, 1, [], [5]⟩ : GroundingSegment)])
      [(⟨1, "https://a".data, []⟩ : Citation)] = "ab".data :=
  (claim_C5 _ _ _).1 (by decide)

theorem filterMap_linkOf_eq_map (cits : List Citation) (l : List Int)
    (h : ∀ idx ∈ l, (citation_uris cits (idx + 1)).getD [] ≠ []) :
    l.filterMap (linkOf cits) =
      l.map fun idx => fmtCitation (idx + 1) ((citation_uris cits (idx + 1)).getD []) := by
  induction l with
  | nil => rfl
  | cons a l ih =>
    rw [List.filterMap_cons, linkOf_eq_some _ _ (h a (List.mem_cons_self a l)),
      List.map_cons, ih fun x hx => h x (List.mem_cons_of_mem a hx)]

/-- C1: for a segment whose chunk indices all resolve, the splicer inserts at
`end_index` (with Python slice semantics) the comma-joined group obtained by
mapping each 0-based chunk index to the marker of citation `chunk_index + 1`,
in the order the indices appear. -/
theorem claim_C1 (t : Str) (seg : GroundingSegment) (cits : List Citation)
    (hres : ∀ idx ∈ seg.chunk_indices, (citation_uris cits (idx + 1)).getD [] ≠ []) :
    add_inline_citations t (some [seg]) cits =
      t.take (pyClamp t.length seg.end_index) ++
        List.intercalate (", ".data)
          (seg.chunk_indices.map fun idx =>
            fmtCitation (idx + 1) ((citation_uris cits (idx + 1)).getD [])) ++
        t.drop (pyClamp t.length seg.end_index) := by
  by_cases hc : cits = []
  · have hci : seg.chunk_indices = [] := by
      cases hci : seg.chunk_indices with
      | nil => rfl
      | cons a l =>
        have ha := hres a (by rw [hci]; exact List.mem_cons_self a l)
        rw [hc] at ha
        simp [citation_uris] at ha
    rw [hci]
    simp [add_inline_citations, hc, List.take_append_drop, List.intercalate]
  · rw [add_inline_citations_some t [seg] cits (by simp) hc, sortSegments_singleton]
    show processSegment cits t seg = _
    unfold processSegment
    by_cases hci : seg.chunk_indices = []
    · rw [if_pos hci, hci]
      simp [intercalate_nil_links, List.take_append_drop]
    · have hmap : citationLinks cits seg =
          seg.chunk_indices.map fun idx =>
            fmtCitation (idx + 1) ((citation_uris cits (idx + 1)).getD []) :=
        filterMap_linkOf_eq_map cits seg.chunk_indices hres
      rw [if_neg hci, hmap, if_neg (by simp [hci])]
      rfl

/-- Closed witness for C1: the concrete scenario from the spec. -/
theorem claim_C1_witness :
    add_inline_citations ("Paris is the capital.".data)
      (some [(⟨0, 22, [], [0]⟩ : GroundingSegment)])
      [(⟨1, "https://a".data, []⟩ : Citation)]
      = ("Paris is the capital.[1](https://a)".data) := by
  have h := claim_C1 ("Paris is the capital.".data) ⟨0, 22, [], [0]⟩
    [⟨1, "https://a".data, []⟩] (by decide)
  exact h.trans (by decide)

/-- C7: the splicer is total: even offsets outside `[0, length text]` are
handled by Python slice clamping.  An `end_index` at or beyond the text
length appends the group at the very end; an `end_index` at or below
`-length` prepends it. -/
theorem claim_C7 (t : Str) (seg : GroundingSegment) (cits : List Citation)
    (hl : citationLinks cits seg ≠ []) :
    ((t.length : Int) ≤ seg.end_index →
      add_inline_citations t (some [seg]) cits =
        t ++ List.intercalate (", ".data) (citationLinks cits seg)) ∧
    (seg.end_index + (t.length : Int) ≤ 0 →
      add_inline_citations t (some [seg]) cits =
        List.intercalate (", ".data) (citationLinks cits seg) ++ t) := by
  have hc := citations_ne_nil_of_links _ _ hl
  have hci := chunk_indices_ne_nil_of_links _ _ hl
  have hmain : add_inline_citations t (some [seg]) cits =
      spliceAt t seg.end_index (List.intercalate (", ".data) (citationLinks cits seg)) := by
    rw [add_inline_citations_some t [seg] cits (by simp) hc, sortSegments_singleton]
    show processSegment cits t seg = _
    unfold processSegment
    rw [if_neg hci, if_neg hl]
  constructor
  · intro h
    rw [hmain]
    unfold spliceAt
    have he : pyClamp t.length seg.end_index = t.length := by
      unfold pyClamp
      rw [if_neg (by omega)]
      omega
    rw [he, List.take_length, List.drop_length, List.append_nil]
  · intro h
    rw [hmain]
    unfold spliceAt
    have he : pyClamp t.length seg.end_index = 0 := by
      unfold pyClamp
      by_cases hneg : seg.end_index < 0
      · rw [if_pos hneg]; omega
      · rw [if_neg hneg]; omega
    rw [he, List.take_zero, List.drop_zero, List.nil_append]

/-- Closed witness for C7: an `end_index` equal to the text length appends at
the very end, and a far-negative `end_index` prepends. -/
theorem claim_C7_witness :
    add_inline_citations ("ab".data) (some [(⟨0, 2, [], [0]⟩ : GroundingSegment)])
      [(⟨1, "https://a".data, []⟩ : Citation)] = ("ab[1](https://a)".data) ∧
    add_inline_citations ("ab".data) (some [(⟨0, -7, [], [0]⟩ : GroundingSegment)])
      [(⟨1, "https://a".data, []⟩ : Citation)] = ("[1](https://a)ab".data) := by
  constructor
  · exact ((claim_C7 ("ab".data) ⟨0, 2, [], [0]⟩ [⟨1, "https://a".data, []⟩]
      (by decide)).1 (by decide)).trans (by decide)
  · exact ((claim_C7 ("ab".data) ⟨0, -7, [], [0]⟩ [⟨1, "https://a".data, []⟩]
      (by decide)).2 (by decide)).trans (by decide)

/-! Lemmas about the citation extraction of `query_with_grounding`. -/

theorem mem_extractCitationsFrom_cons (i : Nat) (chunk : RawChunk) (rest : List RawChunk)
    (c : Citation) (h : c ∈ extractCitationsFrom (i + 1) rest) :
    c ∈ extractCitationsFrom i (chunk :: rest) := by
  cases hrc : (resolveChunk chunk).1 with
  | none => simp only [extractCitationsFrom, hrc]; exact h
  | some u =>
    by_cases hu : u = []
    · simp only [extractCitationsFrom, hrc, if_pos hu]; exact h
    · simp only [extractCitationsFrom, hrc, if_neg hu]
      exact List.mem_cons_of_mem _ h

theorem extractCitationsFrom_spec (chunks : List RawChunk) : ∀ (i : Nat) (c : Citation),
    c ∈ extractCitationsFrom i chunks →
    ∃ j, ∃ h : j < chunks.length, c.index = (i : Int) + (j : Int) + 1 ∧
      (resolveChunk (chunks.get ⟨j, h⟩)).1 = some c.uri ∧ c.uri ≠ [] ∧
      c.title = ((resolveChunk (chunks.get ⟨j, h⟩)).2).getD [] := by
  induction chunks with
  | nil => intro i c hc; simp [extractCitationsFrom] at hc
  | cons chunk rest ih =>
    intro i c hc
    have step : c ∈ extractCitationsFrom (i + 1) rest →
        ∃ j, ∃ h : j < (chunk :: rest).length, c.index = (i : Int) + (j : Int) + 1 ∧
          (resolveChunk ((chunk :: rest).get ⟨j, h⟩)).1 = some c.uri ∧ c.uri ≠ [] ∧
          c.title = ((resolveChunk ((chunk :: rest).get ⟨j, h⟩)).2).getD [] := by
      intro hrest
      obtain ⟨j, hj, h1, h2, h3, h4⟩ := ih (i + 1) c hrest
      refine ⟨j + 1, Nat.succ_lt_succ hj, ?_, h2, h3, h4⟩
      push_cast at h1 ⊢
      omega
    cases hrc : (resolveChunk chunk).1 with
    | none =>
      simp only [extractCitationsFrom, hrc] at hc
      exact step hc
    | some u =>
      by_cases hu : u = []
      · simp only [extractCitationsFrom, hrc, if_pos hu] at hc
        exact step hc
      · simp only [extractCitationsFrom, hrc, if_neg hu] at hc
        rcases List.mem_cons.mp hc with hceq | hcrest
        · subst hceq
          exact ⟨0, Nat.succ_pos _, by push_cast; ring, hrc, hu, rfl⟩
        · exact step hcrest

theorem extractCitationsFrom_mem (chunks : List RawChunk) :
    ∀ (i j : Nat) (h : j < chunks.length) (u : Str), u ≠ [] →
    (resolveChunk (chunks.get ⟨j, h⟩)).1 = some u →
    (⟨(i : Int) + (j : Int) + 1, u, ((resolveChunk (chunks.get ⟨j, h⟩)).2).getD []⟩ : Citation)
      ∈ extractCitationsFrom i chunks := by
  induction chunks with
  | nil => intro i j h; exact absurd h (Nat.not_lt_zero j)
  | cons chunk rest ih =>
    intro i j h u hu hres
    cases j with
    | zero =>
      have hres0 : (resolveChunk chunk).1 = some u := hres
      simp only [extractCitationsFrom, hres0, if_neg hu]
      have hidx : (i : Int) + ((0 : Nat) : Int) + 1 = (i : Int) + 1 := by push_cast; ring
      rw [hidx]
      exact List.mem_cons_self _ _
    | succ j' =>
      apply mem_extractCitationsFrom_cons
      have hidx : (i : Int) + ((j' + 1 : Nat) : Int) + 1 =
          ((i + 1 : Nat) : Int) + (j' : Int) + 1 := by
        push_cast; ring
      rw [hidx]
      exact ih (i + 1) j' (Nat.lt_of_succ_lt_succ h) u hu hres

theorem extractCitationsFrom_index_lt (chunks : List RawChunk) : ∀ (i : Nat) (c : Citation),
    c ∈ extractCitationsFrom i chunks → (i : Int) < c.index := by
  intro i c hc
  obtain ⟨j, hj, h1, -, -, -⟩ := extractCitationsFrom_spec chunks i c hc
  rw [h1]
  omega

theorem extractCitationsFrom_pairwise (chunks : List RawChunk) : ∀ i : Nat,
    List.Pairwise (fun a b => a.index < b.index) (extractCitationsFrom i chunks) := by
  induction chunks with
  | nil => intro i; simp [extractCitationsFrom]
  | cons chunk rest ih =>
    intro i
    cases hrc : (resolveChunk chunk).1 with
    | none => simp only [extractCitationsFrom, hrc]; exact ih (i + 1)
    | some u =>
      by_cases hu : u = []
      · simp only [extractCitationsFrom, hrc, if_pos hu]; exact ih (i + 1)
      · simp only [extractCitationsFrom, hrc, if_neg hu]
        refine List.Pairwise.cons ?_ (ih (i + 1))
        intro b hb
        have hlt := extractCitationsFrom_index_lt rest (i + 1) b hb
        show (i : Int) + 1 < b.index
        push_cast at hlt
        omega

/-- C2: every produced citation's `index` is the 1-based position of its
originating raw chunk, and every chunk with a truthy URI produces exactly
that citation, even when earlier chunks were dropped for lacking a URI. -/
theorem claim_C2 (chunks : List RawChunk) :
    (∀ c ∈ extractCitations chunks, ∃ j, ∃ h : j < chunks.length,
      c.index = (j : Int) + 1 ∧ (resolveChunk (chunks.get ⟨j, h⟩)).1 = some c.uri) ∧
    (∀ (j : Nat) (h : j < chunks.length) (u : Str), u ≠ [] →
      (resolveChunk (chunks.get ⟨j, h⟩)).1 = some u →
      (⟨(j : Int) + 1, u, ((resolveChunk (chunks.get ⟨j, h⟩)).2).getD []⟩ : Citation)
        ∈ extractCitations chunks) := by
  constructor
  · intro c hc
    obtain ⟨j, hj, h1, h2, -, -⟩ := extractCitationsFrom_spec chunks 0 c hc
    refine ⟨j, hj, ?_, h2⟩
    rw [h1]
    push_cast
    ring
  · intro j h u hu hres
    have := extractCitationsFrom_mem chunks 0 j h u hu hres
    have hidx : ((0 : Nat) : Int) + (j : Int) + 1 = (j : Int) + 1 := by push_cast; ring
    rw [hidx] at this
    exact this

/-- Sample raw chunk list used by the closed witnesses: the first chunk has
no resolvable URI and is skipped, the second resolves. -/
def sampleChunks : List RawChunk :=
  [⟨none, true, none, none⟩,
   ⟨some ⟨some ("https://b".data), some ("B".data)⟩, false, none, none⟩]

/-- Closed witness for C2: the citation produced from the second chunk keeps
index 2 although the first chunk was dropped. -/
theorem claim_C2_witness :
    (∃ j, ∃ h : j < sampleChunks.length,
      (⟨(2 : Int), "https://b".data, "B".data⟩ : Citation).index = (j : Int) + 1 ∧
      (resolveChunk (sampleChunks.get ⟨j, h⟩)).1 =
        some (⟨(2 : Int), "https://b".data, "B".data⟩ : Citation).uri) ∧
    ((⟨((1 : Nat) : Int) + 1, "https://b".data,
        ((resolveChunk (sampleChunks.get ⟨1, by decide⟩)).2).getD []⟩ : Citation)
      ∈ extractCitations sampleChunks) :=
  ⟨(claim_C2 sampleChunks).1 _ (by decide),
   (claim_C2 sampleChunks).2 1 (by decide) ("https://b".data) (by decide) (by decide)⟩

/-- C10: the extracted citation list is strictly increasing in `index`, every
citation carries a non-empty URI, and every title is the source title
defaulted to the empty string (the model's `title` field is a total `Str`,
never an absent value). -/
theorem claim_C10 (chunks : List RawChunk) :
    List.Pairwise (fun a b => a.index < b.index) (extractCitations chunks) ∧
    (∀ c ∈ extractCitations chunks, c.uri ≠ [] ∧
      ∃ j, ∃ h : j < chunks.length,
        c.title = ((resolveChunk (chunks.get ⟨j, h⟩)).2).getD []) := by
  constructor
  · exact extractCitationsFrom_pairwise chunks 0
  · intro c hc
    obtain ⟨j, hj, -, -, hu, ht⟩ := extractCitationsFrom_spec chunks 0 c hc
    exact ⟨hu, j, hj, ht⟩

/-- Closed witness for C10 on the sample chunk list. -/
theorem claim_C10_witness :
    List.Pairwise (fun a b => a.index < b.index) (extractCitations sampleChunks) ∧
    (⟨(2 : Int), "https://b".data, "B".data⟩ : Citation).uri ≠ [] :=
  ⟨(claim_C10 sampleChunks).1, ((claim_C10 sampleChunks).2 _ (by decide)).1⟩

/-- Counterexample to C3 as stated: two segments with equal `end_index`
supplied in the two possible input orders yield different final strings
(the stable sort preserves the input order of tied segments, so swapping
them swaps the order of the spliced groups). -/
theorem claim_C3_counterexample :
    add_inline_citations ("ab".data)
      (some [(⟨0, 1, [], [0]⟩ : GroundingSegment), ⟨0, 1, [], [1]⟩])
      [⟨1, "u1".data, []⟩, ⟨2, "u2".data, []⟩] ≠
    add_inline_citations ("ab".data)
      (some [(⟨0, 1, [], [1]⟩ : GroundingSegment), ⟨0, 1, [], [0]⟩])
      [⟨1, "u1".data, []⟩, ⟨2, "u2".data, []⟩] := by decide

/-- C3 (amended): the splicer yields the same final string on any two input
orders of the same segments, provided the segments' `end_index` values are
pairwise distinct; with tied `end_index` values the result depends on the
relative input order of the tied segments. -/
theorem claim_C3 (t : Str) (cits : List Citation) (l1 l2 : List GroundingSegment)
    (hp : l1.Perm l2) (hn : (l1.map GroundingSegment.end_index).Nodup) :
    add_inline_citations t (some l1) cits = add_inline_citations t (some l2) cits := by
  by_cases h1 : l1 = []
  · subst h1
    rw [List.Perm.eq_nil hp.symm]
  · have h2 : l2 ≠ [] := fun h => h1 (List.Perm.eq_nil (h ▸ hp))
    by_cases hc : cits = []
    · subst hc
      simp [add_inline_citations]
    · rw [add_inline_citations_some t l1 cits h1 hc,
        add_inline_citations_some t l2 cits h2 hc]
      suffices hs : sortSegments l1 = sortSegments l2 by rw [hs]
      unfold sortSegments
      have hperm : (List.insertionSort (fun a b => b.end_index ≤ a.end_index) l1).Perm
          (List.insertionSort (fun a b => b.end_index ≤ a.end_index) l2) :=
        (List.perm_insertionSort _ l1).trans
          (hp.trans (List.perm_insertionSort _ l2).symm)
      haveI : IsTotal GroundingSegment (fun a b => b.end_index ≤ a.end_index) :=
        ⟨fun a b => le_total b.end_index a.end_index⟩
      haveI : IsTrans GroundingSegment (fun a b => b.end_index ≤ a.end_index) :=
        ⟨fun _ _ _ hab hbc => le_trans hbc hab⟩
      have hsort1 := List.sorted_insertionSort (fun a b => b.end_index ≤ a.end_index) l1
      have hsort2 := List.sorted_insertionSort (fun a b => b.end_index ≤ a.end_index) l2
      have hne1 : List.Pairwise (fun a b : GroundingSegment => a.end_index ≠ b.end_index)
          (List.insertionSort (fun a b => b.end_index ≤ a.end_index) l1) := by
        have hmapnd : ((List.insertionSort (fun a b => b.end_index ≤ a.end_index) l1).map
            GroundingSegment.end_index).Nodup :=
          ((List.perm_insertionSort _ l1).map GroundingSegment.end_index).symm.nodup hn
        exact List.pairwise_map.mp hmapnd
      have hne2 : List.Pairwise (fun a b : GroundingSegment => a.end_index ≠ b.end_index)
          (List.insertionSort (fun a b => b.end_index ≤ a.end_index) l2) := by
        have hn2 : (l2.map GroundingSegment.end_index).Nodup :=
          (hp.map GroundingSegment.end_index).nodup hn
        have hmapnd : ((List.insertionSort (fun a b => b.end_index ≤ a.end_index) l2).map
            GroundingSegment.end_index).Nodup :=
          ((List.perm_insertionSort _ l2).map GroundingSegment.end_index).symm.nodup hn2
        exact List.pairwise_map.mp hmapnd
      have hstrict1 : List.Sorted (fun a b : GroundingSegment => b.end_index < a.end_index)
          (List.insertionSort (fun a b => b.end_index ≤ a.end_index) l1) :=
        (hsort1.and hne1).imp fun hab => lt_of_le_of_ne hab.1 (Ne.symm hab.2)
      have hstrict2 : List.Sorted (fun a b : GroundingSegment => b.end_index < a.end_index)
          (List.insertionSort (fun a b => b.end_index ≤ a.end_index) l2) :=
        (hsort2.and hne2).imp fun hab => lt_of_le_of_ne hab.1 (Ne.symm hab.2)
      haveI : IsAntisymm GroundingSegment (fun a b => b.end_index < a.end_index) :=
        ⟨fun _ _ hab hba => absurd hab (lt_asymm hba)⟩
      exact List.eq_of_perm_of_sorted hperm hstrict1 hstrict2

/-- Closed witness for C3 (amended) at a pair of distinct-`end_index`
segments supplied in the two possible orders. -/
theorem claim_C3_witness :
    add_inline_citations ("abc".data)
      (some [(⟨0, 2, [], [0]⟩ : GroundingSegment), ⟨0, 1, [], [1]⟩])
      [⟨1, "u1".data, []⟩, ⟨2, "u2".data, []⟩]
    = add_inline_citations ("abc".data)
      (some [(⟨0, 1, [], [1]⟩ : GroundingSegment), ⟨0, 2, [], [0]⟩])
      [⟨1, "u1".data, []⟩, ⟨2, "u2".data, []⟩] :=
  claim_C3 _ _ _ _ (by decide) (by decide)

theorem sortSegments_pair (s1 s2 : GroundingSegment) :
    sortSegments [s1, s2] =
      if s2.end_index ≤ s1.end_index then [s1, s2] else [s2, s1] := by
  by_cases h : s2.end_index ≤ s1.end_index
  · rw [if_pos h]
    simp [sortSegments, List.insertionSort, List.orderedInsert, h]
  · rw [if_neg h]
    simp [sortSegments, List.insertionSort, List.orderedInsert, h]

/-- C4: the splicer processes segments by `end_index` descending with a
stable sort, so each group lands at its segment's `end_index` measured in
the original text: with `end_index` values `e1 < e2` both within the text,
the result is `t[:e1] ++ group1 ++ t[e1:e2] ++ group2 ++ t[e2:]`, and tied
segments are kept in their original input order by the sort. -/
theorem claim_C4 (t : Str) (cits : List Citation) (s1 s2 : GroundingSegment)
    (h0 : 0 ≤ s1.end_index) (h12 : s1.end_index < s2.end_index)
    (h2 : s2.end_index ≤ (t.length : Int))
    (hl1 : citationLinks cits s1 ≠ []) (hl2 : citationLinks cits s2 ≠ []) :
    (add_inline_citations t (some [s1, s2]) cits =
      t.take s1.end_index.toNat ++ List.intercalate (", ".data) (citationLinks cits s1) ++
        (t.take s2.end_index.toNat).drop s1.end_index.toNat ++
        List.intercalate (", ".data) (citationLinks cits s2) ++
        t.drop s2.end_index.toNat) ∧
    (∀ s3 s4 : GroundingSegment, s3.end_index = s4.end_index →
      sortSegments [s3, s4] = [s3, s4]) := by
  constructor
  · have hc := citations_ne_nil_of_links _ _ hl1
    rw [add_inline_citations_some t [s1, s2] cits (by simp) hc,
      sortSegments_pair, if_neg (not_le.mpr h12)]
    show processSegment cits (processSegment cits t s2) s1 = _
    have hp2 : processSegment cits t s2 =
        t.take s2.end_index.toNat ++
          List.intercalate (", ".data) (citationLinks cits s2) ++
          t.drop s2.end_index.toNat := by
      unfold processSegment
      rw [if_neg (chunk_indices_ne_nil_of_links _ _ hl2), if_neg hl2]
      unfold spliceAt
      have hcl : pyClamp t.length s2.end_index = s2.end_index.toNat := by
        unfold pyClamp
        rw [if_neg (by omega)]
        omega
      rw [hcl]
    rw [hp2]
    unfold processSegment
    rw [if_neg (chunk_indices_ne_nil_of_links _ _ hl1), if_neg hl1]
    unfold spliceAt
    have hk1 : pyClamp (t.take s2.end_index.toNat ++
        List.intercalate (", ".data) (citationLinks cits s2) ++
        t.drop s2.end_index.toNat).length s1.end_index = s1.end_index.toNat := by
      unfold pyClamp
      rw [if_neg (by omega)]
      simp only [List.length_append, List.length_take, List.length_drop]
      omega
    rw [hk1]
    have hlenA : (t.take s2.end_index.toNat).length = s2.end_index.toNat := by
      rw [List.length_take]
      omega
    have hk12 : s1.end_index.toNat ≤ s2.end_index.toNat := by omega
    rw [List.take_append_of_le_length (by rw [List.length_append, hlenA]; omega),
      List.take_append_of_le_length (by rw [hlenA]; omega),
      List.take_take, min_eq_left hk12,
      List.drop_append_of_le_length (by rw [List.length_append, hlenA]; omega),
      List.drop_append_of_le_length (by rw [hlenA]; omega)]
    simp [List.append_assoc]
  · intro s3 s4 he
    rw [sortSegments_pair, if_pos (le_of_eq he.symm)]

/-- Closed witness for C4: the spec's `end_index` 5 and 10 on a 10-character
text; the insertion at offset 10 does not shift where the offset-5 marker
lands. -/
theorem claim_C4_witness :
    add_inline_citations ("0123456789".data)
      (some [(⟨0, 5, [], [0]⟩ : GroundingSegment), ⟨0, 10, [], [1]⟩])
      [⟨1, "https://a".data, []⟩, ⟨2, "https://b".data, []⟩]
      = ("01234[1](https://a)56789[2](https://b)".data) := by
  have h := (claim_C4 ("0123456789".data)
    [⟨1, "https://a".data, []⟩, ⟨2, "https://b".data, []⟩]
    ⟨0, 5, [], [0]⟩ ⟨0, 10, [], [1]⟩
    (by decide) (by decide) (by decide) (by decide) (by decide)).1
  exact h.trans (by decide)

end GeminiSearch
